import Mathlib

/-!
Verification of `lessons/200/k8s-private-repo/modify_gitops.py`.

The script toggles the ArgoCD image-updater `ignore-tags` annotation on the
`application.yaml` manifest of every service of an environment, committing the
edits to a fresh branch of a GitHub repository and opening a pull request.

The embedding below models:
* parsed YAML documents (`Yaml`) as the Python objects `yaml.safe_load`
  produces: mappings are association lists keeping insertion order, exactly
  like Python dicts (string keys suffice for manifests);
* the in-place dict mutations of `modify_application` (lines 59-62);
* `yaml.dump(app, default_flow_style=False, explicit_start=True)` (line 64):
  pyyaml's `dump` keeps its default `sort_keys=True`, so every mapping is
  emitted with its keys in sorted order; `dump` below renders a block-style
  document with a `---` header after recursively sorting keys (`sortYaml`);
  scalar quoting details of pyyaml are abstracted (they do not affect any
  property proved here, which only ever compares two `dump` outputs);
* the orchestration of `handle_services`/`main` (lines 67-102) as a function
  from an abstract GitHub API (`RepoApi`) to the trace of attempted API calls
  plus the propagated error, mirroring the try/raise structure of the script;
* line 91's branch-name computation, `f'{args.action}-{args.target-env}-{today}'`,
  including the fact that `{args.target-env}` parses as the Python expression
  `args.target - env` (attribute `target` does not exist on the argparse
  namespace, and `env` is not a name in scope of `main`).
-/

/-- Parsed YAML values as produced by `yaml.safe_load`: scalars (abstracted to
their string content), mappings (Python dicts: insertion-ordered association
lists with string keys), and sequences. -/
inductive Yaml where
  | str (s : String)
  | map (entries : List (String × Yaml))
  | seq (items : List Yaml)

/-- Python dict read `d[k]`: value at the key, `none` when the lookup raises
`KeyError`. -/
def lookupY (es : List (String × Yaml)) (k : String) : Option Yaml :=
  match es with
  | [] => none
  | p :: r => if p.1 = k then some p.2 else lookupY r k

/-- Replacement of the value stored at key `k` (Python dict assignment to an
existing key: the entry keeps its position). -/
def setVal (es : List (String × Yaml)) (k : String) (v : Yaml) : List (String × Yaml) :=
  es.map (fun p => if p.1 = k then (k, v) else p)

/-- Python dict assignment `d[k] = v`: update in place when the key is
present, append at the end otherwise. -/
def dictSet (es : List (String × Yaml)) (k : String) (v : Yaml) : List (String × Yaml) :=
  if k ∈ es.map Prod.fst then setVal es k v else es ++ [(k, v)]

/-- Python `d.pop(k, None)`: remove the key when present; absence is not an
error. -/
def popDict (es : List (String × Yaml)) (k : String) : List (String × Yaml) :=
  es.filter (fun p => p.1 != k)

/-- Annotation key built at lines 71 and 74 of the script:
`f'argocd-image-updater.argoproj.io/{svc.name}.ignore-tags'`. -/
def annotation_key (svc : String) : String :=
  "argocd-image-updater.argoproj.io/" ++ svc ++ ".ignore-tags"

/-- Document transform of `modify_application` (lines 59-62):

  if annotation_key:
      app['metadata']['annotations'][annotation_key] = '*'
  else:
      app['metadata']['annotations'].pop(annotation_key, None)

`annotation_key` is `None` (the parameter default, the `resume` call at
line 75) or a string; `if annotation_key:` is Python truthiness, so the empty
string also selects the `pop` branch.  `pop(None, None)` removes nothing from
a string-keyed dict.  `none` models the uncaught `KeyError`/`TypeError` when
`metadata` or `annotations` is missing or not a mapping. -/
def modify_application_doc (app : Yaml) (ak : Option String) : Option Yaml :=
  match app with
  | .map top =>
    match lookupY top "metadata" with
    | some (.map md) =>
      match lookupY md "annotations" with
      | some (.map ann) =>
        let ann2 : List (String × Yaml) :=
          match ak with
          | some k => if k = "" then popDict ann k else dictSet ann k (.str "*")
          | none => ann
        some (.map (setVal top "metadata" (.map (setVal md "annotations" (.map ann2)))))
      | _ => none
    | _ => none
  | _ => none

/-- Predicate: the document has a `metadata.annotations` mapping, i.e. the
dict accesses of lines 60/62 succeed. -/
def hasAnnMap (app : Yaml) : Bool :=
  match app with
  | .map top =>
    match lookupY top "metadata" with
    | some (.map md) =>
      match lookupY md "annotations" with
      | some (.map _) => true
      | _ => false
    | _ => false
  | _ => false

/-- Top-level entries of a document (empty when it is not a mapping). -/
def topEntries (d : Yaml) : List (String × Yaml) :=
  match d with
  | .map es => es
  | _ => []

/-- Entries of `d['metadata']` (empty when absent or not a mapping). -/
def mdEntries (d : Yaml) : List (String × Yaml) :=
  match lookupY (topEntries d) "metadata" with
  | some (.map es) => es
  | _ => []

/-- Entries of `d['metadata']['annotations']`. -/
def annEntriesOf (d : Yaml) : List (String × Yaml) :=
  match lookupY (mdEntries d) "annotations" with
  | some (.map es) => es
  | _ => []

/-- Value of a single annotation. -/
def annLookup (d : Yaml) (k : String) : Option Yaml :=
  lookupY (annEntriesOf d) k

/-- Keys of `metadata.annotations` in insertion order. -/
def annKeysOf (d : Yaml) : List String :=
  (annEntriesOf d).map Prod.fst

/-- Navigation along a path of mapping keys. -/
def pathLookup (d : Yaml) (ps : List String) : Option Yaml :=
  match ps, d with
  | [], _ => some d
  | k :: ks, .map es =>
    match lookupY es k with
    | some v => pathLookup v ks
    | none => none
  | _ :: _, _ => none

/-- Uniqueness of a key list (Python dicts cannot hold a key twice, so every
mapping produced by `yaml.safe_load` satisfies this). -/
def keysNodup (l : List String) : Bool :=
  match l with
  | [] => true
  | k :: ks => !(ks.contains k) && keysNodup ks

mutual

/-- Well-formed parsed document: every mapping has pairwise distinct keys.
Every value `yaml.safe_load` can return is well-formed, since Python dicts
have unique keys. -/
def wfDoc : Yaml → Bool
  | .str _ => true
  | .map es => keysNodup (es.map Prod.fst) && wfEntries es
  | .seq xs => wfItems xs

/-- All entry values are well-formed. -/
def wfEntries : List (String × Yaml) → Bool
  | [] => true
  | p :: r => wfDoc p.2 && wfEntries r

/-- All items are well-formed. -/
def wfItems : List Yaml → Bool
  | [] => true
  | x :: xs => wfDoc x && wfItems xs

end

/-- Key order used by pyyaml's representer: `sorted(mapping.items())` compares
the (string) keys. -/
def keyLe (a b : String × Yaml) : Prop := a.1 ≤ b.1

instance : DecidableRel keyLe := fun a b => inferInstanceAs (Decidable (a.1 ≤ b.1))

instance : IsTotal (String × Yaml) keyLe := ⟨fun a b => le_total a.1 b.1⟩

instance : IsTrans (String × Yaml) keyLe := ⟨fun _ _ _ hab hbc => le_trans hab hbc⟩

mutual

/-- Recursive key-sorting: the structural effect of serializing with
`yaml.dump` (default `sort_keys=True`) and parsing the output back with
`yaml.safe_load`. -/
def sortYaml : Yaml → Yaml
  | .str s => .str s
  | .map es => .map (List.insertionSort keyLe (sortEntries es))
  | .seq xs => .seq (sortItems xs)

/-- Sort the value of each entry. -/
def sortEntries : List (String × Yaml) → List (String × Yaml)
  | [] => []
  | (k, v) :: r => (k, sortYaml v) :: sortEntries r

/-- Sort each item. -/
def sortItems : List Yaml → List Yaml
  | [] => []
  | v :: r => sortYaml v :: sortItems r

end

/-- Indentation prefix (pyyaml's default indent is two spaces). -/
def indentStr (n : Nat) : String :=
  String.join (List.replicate n "  ")

mutual

/-- Block-style rendering of a value already in key-sorted form, one line per
list element. -/
def yLines : Yaml → Nat → List String
  | .str s, i => [indentStr i ++ s]
  | .map es, i => yEntryLines es i
  | .seq xs, i => ySeqLines xs i

/-- Render mapping entries: scalar values inline after `key: `, nested
collections indented on the following lines. -/
def yEntryLines : List (String × Yaml) → Nat → List String
  | [], _ => []
  | (k, Yaml.str s) :: r, i => (indentStr i ++ k ++ ": " ++ s) :: yEntryLines r i
  | (k, v) :: r, i => (indentStr i ++ k ++ ":") :: (yLines v (i + 1) ++ yEntryLines r i)

/-- Render sequence items. -/
def ySeqLines : List Yaml → Nat → List String
  | [], _ => []
  | Yaml.str s :: r, i => (indentStr i ++ "- " ++ s) :: ySeqLines r i
  | v :: r, i => (indentStr i ++ "-") :: (yLines v (i + 1) ++ ySeqLines r i)

end

/-- Serialization of line 64,
`yaml.dump(app, default_flow_style=False, explicit_start=True)`:
explicit document start marker, block style, keys sorted (pyyaml's default
`sort_keys=True` is not overridden by the call). -/
def dump (d : Yaml) : String :=
  "---\n" ++ String.join ((yLines (sortYaml d) 0).map (fun l => l ++ "\n"))

/-- GitHub-side failures surfaced as `GithubException` in the script: branch
or pull request already exists / stale sha (`ConflictError`), missing
repository, path or ref (`NotFoundError`). -/
inductive GhErr where
  | conflict
  | notFound
deriving Repr, DecidableEq

/-- Python exceptions the script can terminate with: `KeyError` (or the
`TypeError` of subscripting a non-mapping, abstracted together as the failed
lookup), `AttributeError`, `NameError`, and a re-raised `GithubException`. -/
inductive PyErr where
  | keyError
  | attributeError
  | nameError
  | github (e : GhErr)
deriving Repr, DecidableEq

/-- One attempted call to the GitHub API, in the order the script issues
them.  `getContents` and `updateFile` additionally record which service the
call was made for. -/
inductive Ev where
  | getRepo (name : String)
  | createBranch (branch : String)
  | listDir (path : String)
  | getContents (svc : String) (path : String)
  | updateFile (svc : String) (path : String) (message : String) (content : String)
      (sha : String) (branch : String)
  | createPull (title : String)
deriving Repr, DecidableEq

/-- Abstract GitHub repository, the external collaborator of the script: the
responses it gives to each call.  `getContents` returns the blob sha together
with the document `yaml.safe_load` yields from the file's bytes. -/
structure RepoApi where
  createBranch : String → Except GhErr Unit
  listDir : String → Except GhErr (List String)
  getContents : String → Except GhErr (String × Yaml)
  updateFile : String → String → String → String → String → Except GhErr Unit
  createPull : String → String → Except GhErr Unit

/-- Manifest path used at line 55: `f'envs/{env}/{service}/application.yaml'`. -/
def appPath (env svc : String) : String :=
  "envs/" ++ env ++ "/" ++ svc ++ "/application.yaml"

/-- Commit message of line 65: `f'Modify {service} in {env}.'`. -/
def commitMsg (svc env : String) : String :=
  "Modify " ++ svc ++ " in " ++ env ++ "."

/-- `modify_application` (lines 53-65): read the manifest at the default
branch, apply the document transform, dump and commit the result on `branch`
via `update_repo_file`.  Returns the attempted API calls in order plus the
exception that escaped, if any (`update_repo_file` logs and re-raises). -/
def modify_application (api : RepoApi) (env svc branch : String) (ak : Option String) :
    List Ev × Option PyErr :=
  let path := appPath env svc
  match api.getContents path with
  | .error e => ([Ev.getContents svc path], some (.github e))
  | .ok (sha, app) =>
    match modify_application_doc app ak with
    | none => ([Ev.getContents svc path], some .keyError)
    | some app2 =>
      let content := dump app2
      match api.updateFile path (commitMsg svc env) content sha branch with
      | .error e => ([Ev.getContents svc path,
                      Ev.updateFile svc path (commitMsg svc env) content sha branch],
                     some (.github e))
      | .ok _ => ([Ev.getContents svc path,
                   Ev.updateFile svc path (commitMsg svc env) content sha branch], none)

/-- `handle_services` (lines 67-75): iterate the services; `pause` passes the
annotation key, `resume` computes the same key at line 74 but does not pass
it (the call at line 75 leaves the parameter at its `None` default); any
other action does nothing for the service.  An exception aborts the loop and
propagates. -/
def handle_services (api : RepoApi) (env : String) (services : List String)
    (branch action : String) : List Ev × Option PyErr :=
  match services with
  | [] => ([], none)
  | svc :: rest =>
    if action = "pause" then
      match modify_application api env svc branch (some (annotation_key svc)) with
      | (t, some e) => (t, some e)
      | (t, none) =>
        match handle_services api env rest branch action with
        | (t2, r2) => (t ++ t2, r2)
    else if action = "resume" then
      match modify_application api env svc branch none with
      | (t, some e) => (t, some e)
      | (t, none) =>
        match handle_services api env rest branch action with
        | (t2, r2) => (t ++ t2, r2)
    else
      handle_services api env rest branch action

/-- Python `str.capitalize`: first character upper-cased, the rest
lower-cased. -/
def pyCapitalize (s : String) : String :=
  match s.data with
  | [] => ""
  | c :: cs => String.mk (c.toUpper :: cs.map Char.toLower)

/-- Pull request title of line 100:
`f'{args.action.capitalize()} the {args.target_env} environment.'`. -/
def prTitle (action env : String) : String :=
  pyCapitalize action ++ " the " ++ env ++ " environment."

/-- Lines 94-102 of `main`, starting from the computed branch name: create
the branch, then dispatch on the action.  `pause`/`resume` list the
environment directory, run `handle_services` and open the pull request;
`push` only logs; any other action falls through both tests and does
nothing.  Every `GithubException` propagates (the helpers log and
re-raise). -/
def main_after_branch (api : RepoApi) (branch action target_env : String) :
    List Ev × Option PyErr :=
  match api.createBranch branch with
  | .error e => ([Ev.createBranch branch], some (.github e))
  | .ok _ =>
    if action = "pause" ∨ action = "resume" then
      let dir := "envs/" ++ target_env
      match api.listDir dir with
      | .error e => ([Ev.createBranch branch, Ev.listDir dir], some (.github e))
      | .ok services =>
        match handle_services api target_env services branch action with
        | (t, some e) => (Ev.createBranch branch :: Ev.listDir dir :: t, some e)
        | (t, none) =>
          let title := prTitle action target_env
          match api.createPull branch title with
          | .error e =>
            (Ev.createBranch branch :: Ev.listDir dir :: (t ++ [Ev.createPull title]),
             some (.github e))
          | .ok _ =>
            (Ev.createBranch branch :: Ev.listDir dir :: (t ++ [Ev.createPull title]), none)
    else
      ([Ev.createBranch branch], none)

/-- The argparse namespace produced by `options()` (lines 77-83): attributes
`source_env`, `target_env` and `action`, each `None` when the flag was not
given. -/
structure PyNamespace where
  source_env : Option String
  target_env : Option String
  action : Option String

/-- Python `getattr` on that namespace: only the three attributes above
exist; anything else raises `AttributeError`. -/
def nsGetattr (ns : PyNamespace) (attr : String) : Except PyErr (Option String) :=
  if attr = "source_env" then .ok ns.source_env
  else if attr = "target_env" then .ok ns.target_env
  else if attr = "action" then .ok ns.action
  else .error .attributeError

/-- Python str() of an optional flag value as an f-string interpolates it
(`None` prints as `None`). -/
def fmtOpt (v : Option String) : String :=
  match v with
  | none => "None"
  | some s => s

/-- Line 91, `branch_name = f'{args.action}-{args.target-env}-{today}'`.  The
f-string evaluates `args.action`, then the expression `args.target - env`:
the attribute access `args.target` is looked up first, and were it to
succeed, the subtraction with the undefined name `env` would raise
`NameError` rather than produce a string. -/
def branch_name_line (ns : PyNamespace) (_today : String) : Except PyErr String := do
  let _a ← nsGetattr ns "action"
  let _t ← nsGetattr ns "target"
  .error .nameError

/-- `get_repo` (lines 42-51) inside `main`: `os.environ['GITHUB_TOKEN']`
raises `KeyError` when the variable is absent (the `except` clause only
catches `GithubException`, so the `KeyError` propagates); only with a token
does the script issue its first API request, `g.get_repo(name)`, whose
outcome is given by `resolve`. -/
def get_repo_run (token : Option String) (resolve : String → Except GhErr Unit)
    (name : String) : List Ev × Option PyErr :=
  match token with
  | none => ([], some .keyError)
  | some _ =>
    match resolve name with
    | .error e => ([Ev.getRepo name], some (.github e))
    | .ok _ => ([Ev.getRepo name], none)

/-- `main` (lines 85-102): resolve the repository, compute the branch name
(line 91), then create the branch and dispatch.  The trace collects every
attempted API call of the run. -/
def main_run (token : Option String) (resolve : String → Except GhErr Unit)
    (api : RepoApi) (ns : PyNamespace) (today : String) : List Ev × Option PyErr :=
  match get_repo_run token resolve "antonputra/k8s" with
  | (t, some e) => (t, some e)
  | (t, none) =>
    match branch_name_line ns today with
    | .error e => (t, some e)
    | .ok branch =>
      match main_after_branch api branch (fmtOpt ns.action) (fmtOpt ns.target_env) with
      | (t2, r2) => (t ++ t2, r2)

/-- One iteration of the `handle_services` loop for a recognized action
(helper for stating per-service properties). -/
def service_step (api : RepoApi) (env branch action svc : String) : List Ev × Option PyErr :=
  if action = "pause" then modify_application api env svc branch (some (annotation_key svc))
  else if action = "resume" then modify_application api env svc branch none
  else ([], none)

/-- The event is a pull-request creation. -/
def isPullEv (e : Ev) : Bool :=
  match e with
  | .createPull _ => true
  | _ => false

/-- The event is a manifest read for service `s`. -/
def isReadOf (s : String) (e : Ev) : Bool :=
  match e with
  | .getContents svc _ => svc = s
  | _ => false

/-- The event is a file update for service `s`. -/
def isUpdateOf (s : String) (e : Ev) : Bool :=
  match e with
  | .updateFile svc _ _ _ _ _ => svc = s
  | _ => false

/-- The pause toggle at the byte level: parse (already-parsed input),
set the annotation, re-serialize.  `none` when the document lacks the
`metadata.annotations` mapping. -/
def pause_toggle (d : Yaml) (k : String) : Option String :=
  (modify_application_doc d (some k)).map dump

/-- Structural content of re-parsing a `dump` output with `yaml.safe_load`:
the same tree with every mapping's keys in sorted order. -/
def reparse_dump (d : Yaml) : Yaml := sortYaml d

/-- The pause toggle applied twice: the second application starts from the
re-parsed output of the first. -/
def pause_toggle_twice (d : Yaml) (k : String) : Option String :=
  (modify_application_doc d (some k)).bind (fun d1 => pause_toggle (reparse_dump d1) k)

/-- Structural content of the round trip `yaml.safe_load` of
`yaml.dump(...)` of a document (the `resume` path re-serializes without
changing the document, see line 62 vs line 75). -/
def round_trip_doc (d : Yaml) : Yaml := sortYaml d

/-- Manifest of a currently paused service `checkout`: the ignore-tags
annotation is present with value `*`. -/
def docPaused : Yaml :=
  .map [("metadata", .map [("annotations", .map [(annotation_key "checkout", .str "*")])])]

/-- Manifest with an empty `metadata.annotations` mapping. -/
def docEmptyAnn : Yaml :=
  .map [("metadata", .map [("annotations", .map [])])]

/-- Manifest without a `metadata` key. -/
def docNoMeta : Yaml :=
  .map [("kind", .str "Application")]

/-- Manifest whose annotation keys are not in sorted order. -/
def docOrder : Yaml :=
  .map [("metadata", .map [("annotations", .map [("b", .str "one"), ("a", .str "two")])])]

/-- Repository double on which every API call succeeds; the `staging`
environment lists services `a` and `b`, and every manifest read returns
`docEmptyAnn`. -/
def apiAllOk : RepoApi :=
  ⟨fun _ => .ok (), fun _ => .ok ["a", "b"], fun _ => .ok ("sha0", docEmptyAnn),
   fun _ _ _ _ _ => .ok (), fun _ _ => .ok ()⟩

/-- Repository double identical to `apiAllOk` except that updating the
manifest of service `b` in `staging` fails with a conflict. -/
def apiFailB : RepoApi :=
  ⟨fun _ => .ok (), fun _ => .ok ["a", "b"], fun _ => .ok ("sha0", docEmptyAnn),
   fun p _ _ _ _ => if p = appPath "staging" "b" then .error .conflict else .ok (),
   fun _ _ => .ok ()⟩

/-- Repository double whose manifests lack the `metadata` key. -/
def apiNoMeta : RepoApi :=
  ⟨fun _ => .ok (), fun _ => .ok ["checkout"], fun _ => .ok ("sha0", docNoMeta),
   fun _ _ _ _ _ => .ok (), fun _ _ => .ok ()⟩

/-! ### Association-list lemmas (Python dict model) -/

theorem lookupY_eq_none_iff {es : List (String × Yaml)} {k : String} :
    lookupY es k = none ↔ k ∉ es.map Prod.fst := by
  induction es with
  | nil => simp [lookupY]
  | cons p r ih =>
    by_cases h : p.1 = k
    · simp [lookupY, h]
    · simp [lookupY, h, ih, Ne.symm h]

theorem lookupY_mem_fst {es : List (String × Yaml)} {k : String} {v : Yaml}
    (h : lookupY es k = some v) : k ∈ es.map Prod.fst := by
  by_contra hk
  rw [← lookupY_eq_none_iff] at hk
  simp [hk] at h

theorem lookupY_mem_pair {es : List (String × Yaml)} {k : String} {v : Yaml}
    (h : lookupY es k = some v) : (k, v) ∈ es := by
  induction es with
  | nil => simp [lookupY] at h
  | cons p r ih =>
    by_cases hp : p.1 = k
    · rw [lookupY, if_pos hp] at h
      have hpe : p = (k, v) := by
        cases p
        simp_all
      rw [← hpe]
      exact List.mem_cons_self p r
    · rw [lookupY, if_neg hp] at h
      exact List.mem_cons_of_mem _ (ih h)

theorem lookupY_all_eq {es : List (String × Yaml)} {k : String} {v : Yaml}
    (hm : k ∈ es.map Prod.fst) (hall : ∀ p ∈ es, p.1 = k → p.2 = v) :
    lookupY es k = some v := by
  induction es with
  | nil => simp at hm
  | cons p r ih =>
    by_cases hp : p.1 = k
    · rw [lookupY, if_pos hp, hall p (List.mem_cons_self p r) hp]
    · rw [lookupY, if_neg hp]
      rcases List.mem_map.mp hm with ⟨q, hq, hqk⟩
      rcases List.mem_cons.mp hq with rfl | hq
      · exact absurd hqk hp
      · exact ih (List.mem_map.mpr ⟨q, hq, hqk⟩) (fun p hp h => hall p (List.mem_cons_of_mem _ hp) h)

theorem map_fst_setVal (es : List (String × Yaml)) (k : String) (v : Yaml) :
    (setVal es k v).map Prod.fst = es.map Prod.fst := by
  induction es with
  | nil => rfl
  | cons p r ih =>
    show ((if p.1 = k then (k, v) else p) :: setVal r k v).map Prod.fst = _
    by_cases hp : p.1 = k
    · rw [if_pos hp]
      simp only [List.map_cons, ih]
      rw [hp]
    · rw [if_neg hp]
      simp only [List.map_cons, ih]

theorem setVal_allKey (es : List (String × Yaml)) (k : String) (v : Yaml) :
    ∀ p ∈ setVal es k v, p.1 = k → p.2 = v := by
  intro p hp hk
  rcases List.mem_map.mp hp with ⟨q, hq, hqe⟩
  by_cases h : q.1 = k
  · rw [if_pos h] at hqe
    rw [← hqe]
  · rw [if_neg h] at hqe
    exact absurd (hqe ▸ hk) h

theorem setVal_eq_of_all {es : List (String × Yaml)} {k : String} {v : Yaml}
    (hall : ∀ p ∈ es, p.1 = k → p.2 = v) : setVal es k v = es := by
  induction es with
  | nil => rfl
  | cons p r ih =>
    have hr : setVal r k v = r :=
      ih (fun q hq h => hall q (List.mem_cons_of_mem _ hq) h)
    by_cases hp : p.1 = k
    · have hv : p.2 = v := hall p (List.mem_cons_self p r) hp
      show (if p.1 = k then (k, v) else p) :: setVal r k v = p :: r
      rw [if_pos hp, hr, ← hp, ← hv]
    · show (if p.1 = k then (k, v) else p) :: setVal r k v = p :: r
      rw [if_neg hp, hr]

theorem setVal_eq_of_not_mem {es : List (String × Yaml)} {k : String} {v : Yaml}
    (h : k ∉ es.map Prod.fst) : setVal es k v = es := by
  refine setVal_eq_of_all (fun p hp hk => ?_)
  exact absurd (List.mem_map.mpr ⟨p, hp, hk⟩) h

theorem lookupY_setVal_self {es : List (String × Yaml)} {k : String} {v w : Yaml}
    (h : lookupY es k = some w) : lookupY (setVal es k v) k = some v :=
  lookupY_all_eq ((map_fst_setVal es k v).symm ▸ lookupY_mem_fst h) (setVal_allKey es k v)

theorem lookupY_setVal_other {es : List (String × Yaml)} {k k' : String} {v : Yaml}
    (h : k' ≠ k) : lookupY (setVal es k v) k' = lookupY es k' := by
  induction es with
  | nil => rfl
  | cons p r ih =>
    by_cases hp : p.1 = k
    · show lookupY ((if p.1 = k then (k, v) else p) :: setVal r k v) k' = _
      rw [if_pos hp, lookupY, lookupY, if_neg (Ne.symm h), hp, if_neg (Ne.symm h), ih]
    · show lookupY ((if p.1 = k then (k, v) else p) :: setVal r k v) k' = _
      rw [if_neg hp, lookupY, lookupY, ih]

theorem filter_ne_setVal (es : List (String × Yaml)) (k : String) (v : Yaml) :
    (setVal es k v).filter (fun p => p.1 != k) = es.filter (fun p => p.1 != k) := by
  induction es with
  | nil => rfl
  | cons p r ih =>
    by_cases hp : p.1 = k
    · show List.filter _ ((if p.1 = k then (k, v) else p) :: setVal r k v) = _
      rw [if_pos hp]
      simp only [List.filter, hp]
      simp [ih]
    · show List.filter _ ((if p.1 = k then (k, v) else p) :: setVal r k v) = _
      rw [if_neg hp]
      simp only [List.filter]
      simp [hp, ih]

theorem mem_fst_dictSet_self (es : List (String × Yaml)) (k : String) (v : Yaml) :
    k ∈ (dictSet es k v).map Prod.fst := by
  by_cases h : k ∈ es.map Prod.fst
  · rw [dictSet, if_pos h, map_fst_setVal]
    exact h
  · rw [dictSet, if_neg h]
    simp

theorem dictSet_allKey (es : List (String × Yaml)) (k : String) (v : Yaml) :
    ∀ p ∈ dictSet es k v, p.1 = k → p.2 = v := by
  intro p hp hk
  by_cases h : k ∈ es.map Prod.fst
  · rw [dictSet, if_pos h] at hp
    exact setVal_allKey es k v p hp hk
  · rw [dictSet, if_neg h] at hp
    rcases List.mem_append.mp hp with hp | hp
    · exact absurd (List.mem_map.mpr ⟨p, hp, hk⟩) h
    · simp at hp
      rw [hp]

theorem dictSet_eq_of_all {es : List (String × Yaml)} {k : String} {v : Yaml}
    (hm : k ∈ es.map Prod.fst) (hall : ∀ p ∈ es, p.1 = k → p.2 = v) :
    dictSet es k v = es := by
  rw [dictSet, if_pos hm]
  exact setVal_eq_of_all hall

theorem lookupY_dictSet_self (es : List (String × Yaml)) (k : String) (v : Yaml) :
    lookupY (dictSet es k v) k = some v :=
  lookupY_all_eq (mem_fst_dictSet_self es k v) (dictSet_allKey es k v)

theorem lookupY_dictSet_other {es : List (String × Yaml)} {k k' : String} {v : Yaml}
    (h : k' ≠ k) : lookupY (dictSet es k v) k' = lookupY es k' := by
  by_cases hm : k ∈ es.map Prod.fst
  · rw [dictSet, if_pos hm, lookupY_setVal_other h]
  · rw [dictSet, if_neg hm]
    induction es with
    | nil => simp [lookupY, Ne.symm h]
    | cons p r ih =>
      by_cases hp : p.1 = k'
      · simp [lookupY, hp]
      · simp only [List.cons_append, lookupY, if_neg hp]
        exact ih (fun hc => hm (List.mem_cons_of_mem _ hc))

theorem map_fst_dictSet (es : List (String × Yaml)) (k : String) (v : Yaml) :
    (dictSet es k v).map Prod.fst =
      if k ∈ es.map Prod.fst then es.map Prod.fst else es.map Prod.fst ++ [k] := by
  by_cases h : k ∈ es.map Prod.fst
  · rw [dictSet, if_pos h, if_pos h, map_fst_setVal]
  · rw [dictSet, if_neg h, if_neg h]
    simp

theorem popDict_allNe (es : List (String × Yaml)) (k : String) :
    ∀ p ∈ popDict es k, p.1 ≠ k := by
  intro p hp
  have := List.of_mem_filter hp
  simpa using this

theorem popDict_eq_of_allNe {es : List (String × Yaml)} {k : String}
    (h : ∀ p ∈ es, p.1 ≠ k) : popDict es k = es := by
  refine List.filter_eq_self.mpr (fun p hp => ?_)
  simpa using h p hp

/-! ### Uniqueness of keys -/

theorem keysNodup_iff {l : List String} : keysNodup l = true ↔ l.Nodup := by
  induction l with
  | nil => simp [keysNodup]
  | cons k ks ih =>
    simp [keysNodup, ih, List.contains, List.elem_iff]

theorem setVal_eq_of_nodup {es : List (String × Yaml)} {k : String} {v : Yaml}
    (hnd : keysNodup (es.map Prod.fst) = true) (h : lookupY es k = some v) :
    setVal es k v = es := by
  induction es with
  | nil => rfl
  | cons p r ih =>
    simp only [List.map_cons, keysNodup, Bool.and_eq_true, Bool.not_eq_true'] at hnd
    show (if p.1 = k then (k, v) else p) :: setVal r k v = p :: r
    by_cases hp : p.1 = k
    · rw [lookupY, if_pos hp] at h
      have hpe : p = (k, v) := by
        cases p
        simp_all
      have hnr : k ∉ r.map Prod.fst := by
        have h1 := hnd.1
        rw [← hp]
        simpa [List.contains, List.elem_iff] using h1
      rw [if_pos hp, setVal_eq_of_not_mem hnr, ← hpe]
    · rw [lookupY, if_neg hp] at h
      rw [if_neg hp, ih hnd.2 h]

/-! ### Lemmas about the serialization re-ordering (`sortYaml`) -/

theorem sortEntries_eq_map (es : List (String × Yaml)) :
    sortEntries es = es.map (fun p => (p.1, sortYaml p.2)) := by
  induction es with
  | nil => rfl
  | cons p r ih =>
    cases p
    simp [sortEntries, ih]

theorem sortItems_eq_map (xs : List Yaml) : sortItems xs = xs.map sortYaml := by
  induction xs with
  | nil => rfl
  | cons x r ih => simp [sortItems, ih]

theorem map_fst_sortEntries (es : List (String × Yaml)) :
    (sortEntries es).map Prod.fst = es.map Prod.fst := by
  rw [sortEntries_eq_map, List.map_map]
  rfl

theorem mem_sorted_entries {es : List (String × Yaml)} {p : String × Yaml} :
    p ∈ List.insertionSort keyLe (sortEntries es) ↔ ∃ q ∈ es, p = (q.1, sortYaml q.2) := by
  rw [List.mem_insertionSort keyLe, sortEntries_eq_map, List.mem_map]
  constructor
  · rintro ⟨q, hq, rfl⟩
    exact ⟨q, hq, rfl⟩
  · rintro ⟨q, hq, rfl⟩
    exact ⟨q, hq, rfl⟩

theorem mem_fst_sorted {es : List (String × Yaml)} {k : String} :
    k ∈ (List.insertionSort keyLe (sortEntries es)).map Prod.fst ↔ k ∈ es.map Prod.fst := by
  have hperm := List.perm_insertionSort keyLe (sortEntries es)
  rw [(hperm.map Prod.fst).mem_iff, map_fst_sortEntries]

theorem sortYaml_str (s : String) : sortYaml (.str s) = .str s := by
  rw [sortYaml]

theorem sortYaml_seq (xs : List Yaml) : sortYaml (.seq xs) = .seq (sortItems xs) := by
  rw [sortYaml]

theorem sortYaml_map_eq (es : List (String × Yaml)) :
    sortYaml (.map es) = .map (List.insertionSort keyLe (sortEntries es)) := by
  rw [sortYaml]

theorem sortEntries_eq_self_of_fixed {l : List (String × Yaml)}
    (h : ∀ p ∈ l, sortYaml p.2 = p.2) : sortEntries l = l := by
  induction l with
  | nil => rfl
  | cons p r ih =>
    cases p with
    | mk k v =>
      rw [sortEntries, h (k, v) (List.mem_cons_self _ _),
        ih (fun q hq => h q (List.mem_cons_of_mem _ hq))]

theorem sortItems_eq_self_of_fixed {l : List Yaml}
    (h : ∀ x ∈ l, sortYaml x = x) : sortItems l = l := by
  induction l with
  | nil => rfl
  | cons x r ih =>
    rw [sortItems, h x (List.mem_cons_self _ _),
      ih (fun y hy => h y (List.mem_cons_of_mem _ hy))]

mutual

theorem sortYaml_idem : ∀ d : Yaml, sortYaml (sortYaml d) = sortYaml d
  | .str s => by simp [sortYaml_str]
  | .map es => by
    rw [sortYaml_map_eq, sortYaml_map_eq]
    have hfix : sortEntries (List.insertionSort keyLe (sortEntries es)) =
        List.insertionSort keyLe (sortEntries es) := by
      refine sortEntries_eq_self_of_fixed (fun p hp => ?_)
      exact sortEntries_vals_fixed es p ((List.mem_insertionSort keyLe).mp hp)
    rw [hfix, (List.sorted_insertionSort keyLe (sortEntries es)).insertionSort_eq]
  | .seq xs => by
    rw [sortYaml_seq, sortYaml_seq]
    rw [sortItems_eq_self_of_fixed (fun x hx => sortItems_vals_fixed xs x hx)]

theorem sortEntries_vals_fixed : ∀ es : List (String × Yaml),
    ∀ p ∈ sortEntries es, sortYaml p.2 = p.2
  | [] => by
    intro p hp
    simp [sortEntries] at hp
  | (k, v) :: r => by
    intro p hp
    rw [sortEntries] at hp
    rcases List.mem_cons.mp hp with rfl | hp
    · exact sortYaml_idem v
    · exact sortEntries_vals_fixed r p hp

theorem sortItems_vals_fixed : ∀ xs : List Yaml, ∀ x ∈ sortItems xs, sortYaml x = x
  | [] => by
    intro x hx
    simp [sortItems] at hx
  | v :: r => by
    intro x hx
    rw [sortItems] at hx
    rcases List.mem_cons.mp hx with rfl | hx
    · exact sortYaml_idem v
    · exact sortItems_vals_fixed r x hx

end

theorem allKey_sorted {es : List (String × Yaml)} {k : String} {v : Yaml}
    (hall : ∀ p ∈ es, p.1 = k → p.2 = v) :
    ∀ p ∈ List.insertionSort keyLe (sortEntries es), p.1 = k → p.2 = sortYaml v := by
  intro p hp hk
  rcases mem_sorted_entries.mp hp with ⟨q, hq, rfl⟩
  simp only at hk ⊢
  rw [hall q hq hk]

theorem allNe_sorted {es : List (String × Yaml)} {k : String}
    (h : ∀ p ∈ es, p.1 ≠ k) :
    ∀ p ∈ List.insertionSort keyLe (sortEntries es), p.1 ≠ k := by
  intro p hp
  rcases mem_sorted_entries.mp hp with ⟨q, hq, rfl⟩
  exact h q hq

/-! ### The document transform of `modify_application` -/

theorem modify_application_doc_none_eq (top md ann : List (String × Yaml))
    (hmd : lookupY top "metadata" = some (.map md))
    (hann : lookupY md "annotations" = some (.map ann)) :
    modify_application_doc (.map top) none =
      some (.map (setVal top "metadata" (.map (setVal md "annotations" (.map ann))))) := by
  simp only [modify_application_doc, hmd, hann]

theorem modify_application_doc_some_eq (top md ann : List (String × Yaml)) (k : String)
    (hmd : lookupY top "metadata" = some (.map md))
    (hann : lookupY md "annotations" = some (.map ann)) :
    modify_application_doc (.map top) (some k) =
      some (.map (setVal top "metadata" (.map (setVal md "annotations"
        (.map (if k = "" then popDict ann k else dictSet ann k (.str "*"))))))) := by
  simp only [modify_application_doc, hmd, hann]

theorem modify_some_inv {d : Yaml} {k : String} {r : Yaml}
    (h : modify_application_doc d (some k) = some r) :
    ∃ top md ann, d = .map top ∧ lookupY top "metadata" = some (.map md) ∧
      lookupY md "annotations" = some (.map ann) ∧
      r = .map (setVal top "metadata" (.map (setVal md "annotations"
        (.map (if k = "" then popDict ann k else dictSet ann k (.str "*")))))) := by
  cases d with
  | str s => simp [modify_application_doc] at h
  | seq xs => simp [modify_application_doc] at h
  | map top =>
    cases hmd : lookupY top "metadata" with
    | none => simp [modify_application_doc, hmd] at h
    | some mdv =>
      cases mdv with
      | str s => simp [modify_application_doc, hmd] at h
      | seq xs => simp [modify_application_doc, hmd] at h
      | map md =>
        cases hann : lookupY md "annotations" with
        | none => simp [modify_application_doc, hmd, hann] at h
        | some annv =>
          cases annv with
          | str s => simp [modify_application_doc, hmd, hann] at h
          | seq xs => simp [modify_application_doc, hmd, hann] at h
          | map ann =>
            refine ⟨top, md, ann, rfl, hmd, hann, ?_⟩
            rw [modify_application_doc_some_eq top md ann k hmd hann] at h
            exact (Option.some.inj h).symm

theorem modify_sorted_fix {d d1 : Yaml} {k : String}
    (h : modify_application_doc d (some k) = some d1) :
    modify_application_doc (sortYaml d1) (some k) = some (sortYaml d1) := by
  rcases modify_some_inv h with ⟨top, md, ann, rfl, hmd, hann, rfl⟩
  set ann2 : List (String × Yaml) :=
    if k = "" then popDict ann k else dictSet ann k (.str "*") with hann2
  set A3 := List.insertionSort keyLe (sortEntries ann2) with hA3
  set S2 := List.insertionSort keyLe
    (sortEntries (setVal md "annotations" (.map ann2))) with hS2
  set S := List.insertionSort keyLe
    (sortEntries (setVal top "metadata"
      (.map (setVal md "annotations" (.map ann2))))) with hS
  have hsort : sortYaml (Yaml.map (setVal top "metadata"
      (.map (setVal md "annotations" (.map ann2))))) = .map S := by
    rw [sortYaml_map_eq]
  rw [hsort]
  have hmdS : lookupY S "metadata" =
      some (sortYaml (.map (setVal md "annotations" (.map ann2)))) := by
    refine lookupY_all_eq ?_ ?_
    · rw [hS]
      refine mem_fst_sorted.mpr ?_
      rw [map_fst_setVal]
      exact lookupY_mem_fst hmd
    · rw [hS]
      exact allKey_sorted (setVal_allKey _ _ _)
  have hannS2 : lookupY S2 "annotations" = some (sortYaml (.map ann2)) := by
    refine lookupY_all_eq ?_ ?_
    · rw [hS2]
      refine mem_fst_sorted.mpr ?_
      rw [map_fst_setVal]
      exact lookupY_mem_fst hann
    · rw [hS2]
      exact allKey_sorted (setVal_allKey _ _ _)
  have hmdS' : lookupY S "metadata" = some (.map S2) := by
    rw [hmdS, sortYaml_map_eq]
  have hannS2' : lookupY S2 "annotations" = some (.map A3) := by
    rw [hannS2, sortYaml_map_eq]
  rw [modify_application_doc_some_eq S S2 A3 k hmdS' hannS2']
  have hop : (if k = "" then popDict A3 k else dictSet A3 k (.str "*")) = A3 := by
    by_cases hk : k = ""
    · rw [if_pos hk]
      refine popDict_eq_of_allNe ?_
      rw [hA3]
      refine allNe_sorted ?_
      have h2 : ann2 = popDict ann k := by
        rw [hann2, if_pos hk]
      rw [h2]
      exact popDict_allNe ann k
    · rw [if_neg hk]
      have h2 : ann2 = dictSet ann k (.str "*") := by
        rw [hann2, if_neg hk]
      refine dictSet_eq_of_all ?_ ?_
      · rw [hA3]
        refine mem_fst_sorted.mpr ?_
        rw [h2]
        exact mem_fst_dictSet_self ann k _
      · rw [hA3]
        intro p hp hpk
        have h3 := allKey_sorted (v := Yaml.str "*") ?_ p hp hpk
        · rw [h3, sortYaml_str]
        · rw [h2]
          exact dictSet_allKey ann k _
  have hset2 : setVal S2 "annotations" (.map A3) = S2 := by
    refine setVal_eq_of_all ?_
    rw [hS2]
    intro p hp hpk
    have h3 := allKey_sorted (v := Yaml.map ann2) (setVal_allKey md "annotations" _) p hp hpk
    rw [h3, sortYaml_map_eq, hA3]
  have hset1 : setVal S "metadata" (.map S2) = S := by
    refine setVal_eq_of_all ?_
    rw [hS]
    intro p hp hpk
    have h3 := allKey_sorted (v := Yaml.map (setVal md "annotations" (.map ann2)))
      (setVal_allKey top "metadata" _) p hp hpk
    rw [h3, sortYaml_map_eq, hS2]
  rw [hop, hset2, hset1]

theorem dump_sortYaml (d : Yaml) : dump (sortYaml d) = dump d := by
  rw [dump, dump, sortYaml_idem]

theorem hasAnnMap_inv {d : Yaml} (h : hasAnnMap d = true) :
    ∃ top md ann, d = .map top ∧ lookupY top "metadata" = some (.map md) ∧
      lookupY md "annotations" = some (.map ann) := by
  cases d with
  | str s => simp [hasAnnMap] at h
  | seq xs => simp [hasAnnMap] at h
  | map top =>
    cases hmd : lookupY top "metadata" with
    | none => simp [hasAnnMap, hmd] at h
    | some mdv =>
      cases mdv with
      | str s => simp [hasAnnMap, hmd] at h
      | seq xs => simp [hasAnnMap, hmd] at h
      | map md =>
        cases hann : lookupY md "annotations" with
        | none => simp [hasAnnMap, hmd, hann] at h
        | some annv =>
          cases annv with
          | str s => simp [hasAnnMap, hmd, hann] at h
          | seq xs => simp [hasAnnMap, hmd, hann] at h
          | map ann => exact ⟨top, md, ann, rfl, hmd, hann⟩

theorem mdEntries_of {top md : List (String × Yaml)}
    (hmd : lookupY top "metadata" = some (.map md)) :
    mdEntries (.map top) = md := by
  simp [mdEntries, topEntries, hmd]

theorem annEntriesOf_of {top md ann : List (String × Yaml)}
    (hmd : lookupY top "metadata" = some (.map md))
    (hann : lookupY md "annotations" = some (.map ann)) :
    annEntriesOf (.map top) = ann := by
  simp [annEntriesOf, mdEntries_of hmd, hann]

theorem modified_mdEntries {top md : List (String × Yaml)} (inner : Yaml)
    (hmd : lookupY top "metadata" = some (.map md)) (md2 : List (String × Yaml))
    (hin : inner = Yaml.map md2) :
    mdEntries (.map (setVal top "metadata" inner)) = md2 := by
  subst hin
  have h1 : lookupY (setVal top "metadata" (Yaml.map md2)) "metadata" =
      some (Yaml.map md2) := lookupY_setVal_self hmd
  simp [mdEntries, topEntries, h1]

theorem modified_annEntries {top md ann : List (String × Yaml)}
    (ann2 : List (String × Yaml))
    (hmd : lookupY top "metadata" = some (.map md))
    (hann : lookupY md "annotations" = some (.map ann)) :
    annEntriesOf (.map (setVal top "metadata"
      (.map (setVal md "annotations" (.map ann2))))) = ann2 := by
  have h1 := modified_mdEntries (.map (setVal md "annotations" (.map ann2))) hmd
    (setVal md "annotations" (.map ann2)) rfl
  have h2 : lookupY (setVal md "annotations" (.map ann2)) "annotations" =
      some (.map ann2) := lookupY_setVal_self hann
  simp [annEntriesOf, h1, h2]

theorem annotation_key_ne_empty (svc : String) : annotation_key svc ≠ "" := by
  intro h
  have h1 : (annotation_key svc).length = ("" : String).length := by rw [h]
  rw [annotation_key, String.length_append, String.length_append] at h1
  simp at h1
  exact absurd h1.2 (by decide)

theorem wfEntries_mem {es : List (String × Yaml)} (h : wfEntries es = true)
    {p : String × Yaml} (hp : p ∈ es) : wfDoc p.2 = true := by
  induction es with
  | nil => simp at hp
  | cons q r ih =>
    rw [wfEntries, Bool.and_eq_true] at h
    rcases List.mem_cons.mp hp with rfl | hp
    · exact h.1
    · exact ih h.2 hp

/-- C5: for every parsed document `d` and key `k`, applying the pause toggle
(set `metadata.annotations[k] = "*"` and re-serialize) twice produces
byte-identical output to applying it once; when the first application fails,
so does the second. -/
theorem pause_toggle_idempotent (d : Yaml) (k : String) :
    pause_toggle_twice d k = pause_toggle d k := by
  cases hd : modify_application_doc d (some k) with
  | none => simp [pause_toggle_twice, pause_toggle, hd]
  | some d1 =>
    have h2 : modify_application_doc (reparse_dump d1) (some k) = some (sortYaml d1) := by
      rw [reparse_dump]
      exact modify_sorted_fix hd
    simp [pause_toggle_twice, pause_toggle, hd, h2, dump_sortYaml]

/-- C6: for action resume on a document with a `metadata.annotations`
mapping and a key not present there, the document transform is the identity
(removal of an absent key is a no-op, not an error); the written bytes then
differ from the input only by re-serialization. -/
theorem resume_absent_key_noop (d : Yaml) (k : String)
    (hwf : wfDoc d = true) (hann : hasAnnMap d = true)
    (_habs : annLookup d k = none) :
    modify_application_doc d none = some d := by
  rcases hasAnnMap_inv hann with ⟨top, md, ann, rfl, hmd, hann2⟩
  rw [modify_application_doc_none_eq top md ann hmd hann2]
  rw [wfDoc, Bool.and_eq_true] at hwf
  have hmdwf : wfDoc (.map md) = true := wfEntries_mem hwf.2 (lookupY_mem_pair hmd)
  rw [wfDoc, Bool.and_eq_true] at hmdwf
  rw [setVal_eq_of_nodup hmdwf.1 hann2, setVal_eq_of_nodup hwf.1 hmd]

/-- Witness for C6 at the paused `checkout` manifest and an absent key. -/
theorem resume_absent_key_noop_witness :
    wfDoc docPaused = true ∧ hasAnnMap docPaused = true ∧
      annLookup docPaused "example.com/other" = none ∧
      modify_application_doc docPaused none = some docPaused :=
  ⟨rfl, rfl, rfl,
    resume_absent_key_noop docPaused "example.com/other" rfl rfl rfl⟩

/-- C3: for action pause on a manifest whose `metadata.annotations` mapping
exists, the result sets exactly the service's ignore-tags key to `*`: that
key reads `*`, every other annotation is unchanged, the annotation key list
gains at most the new key at the end, and everything outside
`metadata.annotations` is untouched. -/
theorem pause_sets_exactly_one_annotation (d : Yaml) (svc : String)
    (h : hasAnnMap d = true) :
    ∃ r, modify_application_doc d (some (annotation_key svc)) = some r ∧
      annLookup r (annotation_key svc) = some (.str "*") ∧
      (∀ k2, k2 ≠ annotation_key svc → annLookup r k2 = annLookup d k2) ∧
      annKeysOf r = (if annotation_key svc ∈ annKeysOf d then annKeysOf d
                     else annKeysOf d ++ [annotation_key svc]) ∧
      (topEntries r).filter (fun p => p.1 != "metadata") =
        (topEntries d).filter (fun p => p.1 != "metadata") ∧
      (mdEntries r).filter (fun p => p.1 != "annotations") =
        (mdEntries d).filter (fun p => p.1 != "annotations") := by
  rcases hasAnnMap_inv h with ⟨top, md, ann, rfl, hmd, hann⟩
  have hkne : annotation_key svc ≠ "" := annotation_key_ne_empty svc
  rw [modify_application_doc_some_eq top md ann (annotation_key svc) hmd hann, if_neg hkne]
  refine ⟨_, rfl, ?_, ?_, ?_, ?_, ?_⟩
  · rw [annLookup, modified_annEntries _ hmd hann, lookupY_dictSet_self]
  · intro k2 hk2
    rw [annLookup, modified_annEntries _ hmd hann, lookupY_dictSet_other hk2,
      annLookup, annEntriesOf_of hmd hann]
  · rw [annKeysOf, modified_annEntries _ hmd hann, map_fst_dictSet,
      annKeysOf, annEntriesOf_of hmd hann]
  · show (setVal top "metadata" _).filter _ = top.filter _
    exact filter_ne_setVal top "metadata" _
  · rw [modified_mdEntries _ hmd _ rfl, mdEntries_of hmd]
    exact filter_ne_setVal md "annotations" _

/-- Witness for C3 at the empty-annotations manifest and service
`checkout`. -/
theorem pause_sets_exactly_one_annotation_witness :
    hasAnnMap docEmptyAnn = true ∧
    (∃ r, modify_application_doc docEmptyAnn (some (annotation_key "checkout")) = some r ∧
      annLookup r (annotation_key "checkout") = some (.str "*") ∧
      (∀ k2, k2 ≠ annotation_key "checkout" → annLookup r k2 = annLookup docEmptyAnn k2) ∧
      annKeysOf r = (if annotation_key "checkout" ∈ annKeysOf docEmptyAnn
                     then annKeysOf docEmptyAnn
                     else annKeysOf docEmptyAnn ++ [annotation_key "checkout"]) ∧
      (topEntries r).filter (fun p => p.1 != "metadata") =
        (topEntries docEmptyAnn).filter (fun p => p.1 != "metadata") ∧
      (mdEntries r).filter (fun p => p.1 != "annotations") =
        (mdEntries docEmptyAnn).filter (fun p => p.1 != "annotations")) :=
  ⟨rfl, pause_sets_exactly_one_annotation docEmptyAnn "checkout" rfl⟩

/-- C1: counter-evidence — for action resume the script computes the
ignore-tags key at line 74 but the call at line 75 does not pass it, so
`modify_application` pops `None`: the document of a paused service is
written back unchanged and the annotation is NOT removed. -/
theorem resume_leaves_annotation_in_place :
    modify_application_doc docPaused none = some docPaused ∧
      annLookup docPaused (annotation_key "checkout") = some (.str "*") :=
  ⟨rfl, rfl⟩

/-! ### Round-trip lemmas (C7) -/

theorem wfDoc_map_nodup {es : List (String × Yaml)} (h : wfDoc (.map es) = true) :
    keysNodup (es.map Prod.fst) = true := by
  rw [wfDoc, Bool.and_eq_true] at h
  exact h.1

theorem wfDoc_map_entries {es : List (String × Yaml)} (h : wfDoc (.map es) = true) :
    wfEntries es = true := by
  rw [wfDoc, Bool.and_eq_true] at h
  exact h.2

theorem lookupY_all_of_nodup {es : List (String × Yaml)} {k : String} {v : Yaml}
    (hnd : keysNodup (es.map Prod.fst) = true) (hl : lookupY es k = some v) :
    ∀ p ∈ es, p.1 = k → p.2 = v := by
  induction es with
  | nil =>
    intro p hp
    simp at hp
  | cons q r ih =>
    simp only [List.map_cons, keysNodup, Bool.and_eq_true, Bool.not_eq_true'] at hnd
    intro p hp hpk
    rcases List.mem_cons.mp hp with rfl | hp
    · rw [lookupY, if_pos hpk] at hl
      exact Option.some.inj hl
    · by_cases hq : q.1 = k
      · exfalso
        have hmem : q.1 ∈ List.map Prod.fst r := by
          rw [hq]
          exact List.mem_map.mpr ⟨p, hp, hpk⟩
        have hc : List.contains (List.map Prod.fst r) q.1 = true := by
          simpa [List.contains] using List.elem_iff.mpr hmem
        rw [hnd.1] at hc
        exact Bool.false_ne_true hc
      · rw [lookupY, if_neg hq] at hl
        exact ih hnd.2 hl p hp hpk

theorem lookupY_sorted_of_nodup {es : List (String × Yaml)} {k : String}
    (hnd : keysNodup (es.map Prod.fst) = true) :
    lookupY (List.insertionSort keyLe (sortEntries es)) k
      = (lookupY es k).map sortYaml := by
  cases hl : lookupY es k with
  | none =>
    have h1 := lookupY_eq_none_iff.mp hl
    have h2 : lookupY (List.insertionSort keyLe (sortEntries es)) k = none :=
      lookupY_eq_none_iff.mpr (fun hmem => h1 (mem_fst_sorted.mp hmem))
    rw [h2]
    rfl
  | some v =>
    exact lookupY_all_eq (mem_fst_sorted.mpr (lookupY_mem_fst hl))
      (allKey_sorted (lookupY_all_of_nodup hnd hl))

theorem pathLookup_sortYaml (ps : List String) (d : Yaml) (hwf : wfDoc d = true) :
    pathLookup (sortYaml d) ps = (pathLookup d ps).map sortYaml := by
  induction ps generalizing d with
  | nil => simp [pathLookup]
  | cons k ks ih =>
    cases d with
    | str s =>
      rw [sortYaml_str]
      simp [pathLookup]
    | seq xs =>
      rw [sortYaml_seq]
      simp [pathLookup]
    | map es =>
      rw [sortYaml_map_eq]
      have hnd := wfDoc_map_nodup hwf
      cases hl : lookupY es k with
      | none => simp [pathLookup, lookupY_sorted_of_nodup hnd, hl]
      | some v =>
        have hv : wfDoc v = true :=
          wfEntries_mem (wfDoc_map_entries hwf) (lookupY_mem_pair hl)
        simp [pathLookup, lookupY_sorted_of_nodup hnd, hl, ih v hv]

theorem annEntriesOf_sortYaml {d : Yaml} (hwf : wfDoc d = true) :
    annEntriesOf (sortYaml d)
      = List.insertionSort keyLe (sortEntries (annEntriesOf d)) := by
  cases d with
  | str s =>
    rw [sortYaml_str]
    rfl
  | seq xs =>
    rw [sortYaml_seq]
    rfl
  | map es =>
    rw [sortYaml_map_eq]
    have hnd := wfDoc_map_nodup hwf
    cases hmd : lookupY es "metadata" with
    | none =>
      have h2 : lookupY (List.insertionSort keyLe (sortEntries es)) "metadata" = none := by
        rw [lookupY_sorted_of_nodup hnd, hmd]
        rfl
      simp [annEntriesOf, mdEntries, topEntries, lookupY, sortEntries, hmd, h2]
    | some v =>
      have h2 : lookupY (List.insertionSort keyLe (sortEntries es)) "metadata"
          = some (sortYaml v) := by
        rw [lookupY_sorted_of_nodup hnd, hmd]
        rfl
      cases v with
      | str s => simp [annEntriesOf, mdEntries, topEntries, lookupY, sortEntries, hmd, h2, sortYaml_str]
      | seq xs => simp [annEntriesOf, mdEntries, topEntries, lookupY, sortEntries, hmd, h2, sortYaml_seq]
      | map md =>
        rw [sortYaml_map_eq] at h2
        have hmdwf : wfDoc (.map md) = true :=
          wfEntries_mem (wfDoc_map_entries hwf) (lookupY_mem_pair hmd)
        have hndmd := wfDoc_map_nodup hmdwf
        cases hann : lookupY md "annotations" with
        | none =>
          have h3 : lookupY (List.insertionSort keyLe (sortEntries md)) "annotations"
              = none := by
            rw [lookupY_sorted_of_nodup hndmd, hann]
            rfl
          simp [annEntriesOf, mdEntries, topEntries, lookupY, sortEntries, hmd, h2, hann, h3]
        | some w =>
          have h3 : lookupY (List.insertionSort keyLe (sortEntries md)) "annotations"
              = some (sortYaml w) := by
            rw [lookupY_sorted_of_nodup hndmd, hann]
            rfl
          cases w with
          | str s =>
            simp [annEntriesOf, mdEntries, topEntries, lookupY, sortEntries, hmd, h2, hann, h3, sortYaml_str]
          | seq xs =>
            simp [annEntriesOf, mdEntries, topEntries, lookupY, sortEntries, hmd, h2, hann, h3, sortYaml_seq]
          | map ann =>
            rw [sortYaml_map_eq] at h3
            simp [annEntriesOf, mdEntries, topEntries, hmd, h2, hann, h3]

/-- C7 counterexample: re-serializing (pyyaml `sort_keys=True` default) does
NOT preserve the insertion order of `metadata.annotations`: for the manifest
with annotation keys `[b, a]` the round trip yields keys `[a, b]`. -/
theorem round_trip_reorders_annotation_keys :
    annKeysOf (round_trip_doc docOrder) ≠ annKeysOf docOrder := by
  have hba : ¬ keyLe ("b", Yaml.str "one") ("a", Yaml.str "two") := by
    rw [keyLe]
    exact not_le.mpr (String.lt_iff_toList_lt.mpr (by decide))
  have h1 : annKeysOf (round_trip_doc docOrder) = ["a", "b"] := by
    simp [round_trip_doc, docOrder, sortYaml, sortEntries, annKeysOf, annEntriesOf,
      mdEntries, topEntries, lookupY, List.insertionSort, List.orderedInsert, hba]
  have h2 : annKeysOf docOrder = ["b", "a"] := rfl
  rw [h1, h2]
  decide

/-- C7 amended: parsing and re-serializing a manifest (no annotation change
requested) preserves every key and value of the document — every path
resolves exactly as before, up to the same recursive key re-ordering of
sub-mappings — and the keys of `metadata.annotations` are a permutation of
the original ones, emitted in sorted order: insertion order is preserved
exactly when it was already sorted. -/
theorem round_trip_preserves_keys_values (d : Yaml) (hwf : wfDoc d = true) :
    (∀ ps, pathLookup (round_trip_doc d) ps = (pathLookup d ps).map sortYaml) ∧
    (annKeysOf (round_trip_doc d)).Perm (annKeysOf d) ∧
    (List.Pairwise (fun a b => a ≤ b) (annKeysOf d) →
      annKeysOf (round_trip_doc d) = annKeysOf d) := by
  refine ⟨fun ps => ?_, ?_, fun hsorted => ?_⟩
  · rw [round_trip_doc]
    exact pathLookup_sortYaml ps d hwf
  · rw [round_trip_doc, annKeysOf, annEntriesOf_sortYaml hwf]
    have hperm := (List.perm_insertionSort keyLe (sortEntries (annEntriesOf d))).map Prod.fst
    refine hperm.trans ?_
    rw [map_fst_sortEntries, annKeysOf]
  · rw [round_trip_doc, annKeysOf, annEntriesOf_sortYaml hwf]
    have hs : List.Sorted keyLe (sortEntries (annEntriesOf d)) := by
      rw [annKeysOf] at hsorted
      rw [sortEntries_eq_map]
      have h1 := List.pairwise_map.mp hsorted
      exact List.pairwise_map.mpr h1
    rw [hs.insertionSort_eq, map_fst_sortEntries, annKeysOf]

/-- Witness for the amended C7 at the out-of-order manifest. -/
theorem round_trip_preserves_keys_values_witness :
    wfDoc docOrder = true ∧
    ((∀ ps, pathLookup (round_trip_doc docOrder) ps
        = (pathLookup docOrder ps).map sortYaml) ∧
      (annKeysOf (round_trip_doc docOrder)).Perm (annKeysOf docOrder) ∧
      (List.Pairwise (fun a b => a ≤ b) (annKeysOf docOrder) →
        annKeysOf (round_trip_doc docOrder) = annKeysOf docOrder)) :=
  ⟨rfl, round_trip_preserves_keys_values docOrder rfl⟩

/-! ### Entry point and orchestration -/

/-- C2: counter-evidence — line 91's f-string interpolates
`{args.target-env}`, which is the Python expression `args.target - env`; the
argparse namespace of `options()` has no attribute `target`, so every
invocation raises `AttributeError` at the branch-name computation: no branch
name of the form `{action}-{target_env}-{today}` is ever produced or passed
to `create_branch`. -/
theorem branch_name_line_always_raises (ns : PyNamespace) (today : String) :
    branch_name_line ns today = Except.error PyErr.attributeError := rfl

/-- C9: with `GITHUB_TOKEN` absent, the run fails with the uncaught
`KeyError` of `os.environ['GITHUB_TOKEN']` before its first request to the
GitHub API: the trace of attempted API calls is empty, so no remote state is
read or mutated. -/
theorem missing_token_fails_before_api (resolve : String → Except GhErr Unit)
    (api : RepoApi) (ns : PyNamespace) (today : String) :
    main_run none resolve api ns today = ([], some PyErr.keyError) := rfl

theorem modify_isSome_iff {d : Yaml} {ak : Option String} :
    (modify_application_doc d ak).isSome = hasAnnMap d := by
  cases d with
  | str s => simp [modify_application_doc, hasAnnMap]
  | seq xs => simp [modify_application_doc, hasAnnMap]
  | map top =>
    cases hmd : lookupY top "metadata" with
    | none => simp [modify_application_doc, hasAnnMap, hmd]
    | some mdv =>
      cases mdv with
      | str s => simp [modify_application_doc, hasAnnMap, hmd]
      | seq xs => simp [modify_application_doc, hasAnnMap, hmd]
      | map md =>
        cases hann : lookupY md "annotations" with
        | none => simp [modify_application_doc, hasAnnMap, hmd, hann]
        | some annv =>
          cases annv with
          | str s => simp [modify_application_doc, hasAnnMap, hmd, hann]
          | seq xs => simp [modify_application_doc, hasAnnMap, hmd, hann]
          | map ann => simp [modify_application_doc, hasAnnMap, hmd, hann]

/-- C10: when the fetched manifest lacks `metadata`, or lacks
`metadata.annotations` as a mapping, `modify_application` stops with the
uncaught lookup error right after the read — no file update is attempted —
and when the mapping exists the annotation-mutation step itself always
succeeds. -/
theorem modify_application_lookup_safety (api : RepoApi) (env svc branch : String)
    (ak : Option String) (sha : String) (d : Yaml)
    (hread : api.getContents (appPath env svc) = .ok (sha, d)) :
    (hasAnnMap d = false →
      modify_application api env svc branch ak
        = ([Ev.getContents svc (appPath env svc)], some PyErr.keyError)) ∧
    (hasAnnMap d = true → (modify_application_doc d ak).isSome = true) := by
  constructor
  · intro hfalse
    have hnone : modify_application_doc d ak = none := by
      have h1 : (modify_application_doc d ak).isSome = hasAnnMap d := modify_isSome_iff
      rw [hfalse] at h1
      exact Option.not_isSome_iff_eq_none.mp (by simp [h1])
    simp [modify_application, hread, hnone]
  · intro htrue
    rw [modify_isSome_iff, htrue]

/-- Witness for C10: a manifest without `metadata` makes
`modify_application` fail after the read with no update attempted. -/
theorem modify_application_lookup_safety_witness :
    apiNoMeta.getContents (appPath "staging" "checkout") = .ok ("sha0", docNoMeta) ∧
    ((hasAnnMap docNoMeta = false →
      modify_application apiNoMeta "staging" "checkout" "br" none
        = ([Ev.getContents "checkout" (appPath "staging" "checkout")], some PyErr.keyError)) ∧
     (hasAnnMap docNoMeta = true → (modify_application_doc docNoMeta none).isSome = true)) :=
  ⟨rfl, modify_application_lookup_safety apiNoMeta "staging" "checkout" "br" none
    "sha0" docNoMeta rfl⟩

/-- C8: for action `push`, and for every action outside pause/resume, the
run creates the branch and then issues no further API call — no directory
listing, no manifest read, no file update, no pull request — and raises no
error for the unrecognized action. -/
theorem unrecognized_action_only_creates_branch (api : RepoApi)
    (branch action target_env : String)
    (hp : action ≠ "pause") (hr : action ≠ "resume")
    (hcb : api.createBranch branch = .ok ()) :
    main_after_branch api branch action target_env
      = ([Ev.createBranch branch], none) := by
  simp [main_after_branch, hcb, hp, hr]

/-- Witness for C8 at action `push` on the all-succeeding repository. -/
theorem unrecognized_action_only_creates_branch_witness :
    ("push" : String) ≠ "pause" ∧ ("push" : String) ≠ "resume" ∧
    apiAllOk.createBranch "b1" = .ok () ∧
    main_after_branch apiAllOk "b1" "push" "staging" = ([Ev.createBranch "b1"], none) :=
  ⟨by decide, by decide, rfl,
    unrecognized_action_only_creates_branch apiAllOk "b1" "push" "staging"
      (by decide) (by decide) rfl⟩

/-! ### Per-service trace accounting (C4) -/

theorem modify_application_counts (api : RepoApi) (env svc branch : String)
    (ak : Option String) (s2 : String) :
    ((modify_application api env svc branch ak).1.countP (isReadOf s2)
        = if svc = s2 then 1 else 0) ∧
    ((modify_application api env svc branch ak).1.countP isPullEv = 0) ∧
    (svc ≠ s2 → (modify_application api env svc branch ak).1.countP (isUpdateOf s2) = 0) ∧
    ((modify_application api env svc branch ak).2 = none →
      (modify_application api env svc branch ak).1.countP (isUpdateOf s2)
        = if svc = s2 then 1 else 0) := by
  cases hg : api.getContents (appPath env svc) with
  | error e =>
    simp only [modify_application, hg]
    by_cases h : svc = s2 <;>
      simp [isReadOf, isUpdateOf, isPullEv, h, List.countP_cons, List.countP_nil]
  | ok pr =>
    obtain ⟨sha, app⟩ := pr
    cases hm : modify_application_doc app ak with
    | none =>
      simp only [modify_application, hg, hm]
      by_cases h : svc = s2 <;>
        simp [isReadOf, isUpdateOf, isPullEv, h, List.countP_cons, List.countP_nil]
    | some app2 =>
      cases hu : api.updateFile (appPath env svc) (commitMsg svc env) (dump app2) sha branch with
      | error e =>
        simp only [modify_application, hg, hm, hu]
        by_cases h : svc = s2 <;>
          simp [isReadOf, isUpdateOf, isPullEv, h, List.countP_cons, List.countP_nil]
      | ok u =>
        simp only [modify_application, hg, hm, hu]
        by_cases h : svc = s2 <;>
          simp [isReadOf, isUpdateOf, isPullEv, h, List.countP_cons, List.countP_nil]

theorem service_step_counts (api : RepoApi) (env branch action svc s2 : String)
    (hact : action = "pause" ∨ action = "resume") :
    ((service_step api env branch action svc).1.countP (isReadOf s2)
        = if svc = s2 then 1 else 0) ∧
    ((service_step api env branch action svc).1.countP isPullEv = 0) ∧
    (svc ≠ s2 → (service_step api env branch action svc).1.countP (isUpdateOf s2) = 0) ∧
    ((service_step api env branch action svc).2 = none →
      (service_step api env branch action svc).1.countP (isUpdateOf s2)
        = if svc = s2 then 1 else 0) := by
  rcases hact with rfl | rfl
  · simpa [service_step] using modify_application_counts api env svc branch
      (some (annotation_key svc)) s2
  · simpa [service_step] using modify_application_counts api env svc branch none s2

theorem handle_services_cons_fail (api : RepoApi) (env svc branch action : String)
    (rest : List String) (e : PyErr)
    (hact : action = "pause" ∨ action = "resume")
    (hf : (service_step api env branch action svc).2 = some e) :
    handle_services api env (svc :: rest) branch action
      = ((service_step api env branch action svc).1, some e) := by
  rcases hact with rfl | rfl
  · rw [service_step, if_pos rfl] at hf
    rw [handle_services, if_pos rfl]
    cases hms : modify_application api env svc branch (some (annotation_key svc)) with
    | mk t r =>
      rw [hms] at hf
      have hr : r = some e := hf
      subst hr
      simp [service_step, hms]
  · have hne : ("resume" : String) ≠ "pause" := by decide
    rw [service_step, if_neg hne, if_pos rfl] at hf
    rw [handle_services, if_neg hne, if_pos rfl]
    cases hms : modify_application api env svc branch none with
    | mk t r =>
      rw [hms] at hf
      have hr : r = some e := hf
      subst hr
      simp [service_step, hms]

theorem handle_services_cons_ok (api : RepoApi) (env svc branch action : String)
    (rest : List String)
    (hact : action = "pause" ∨ action = "resume")
    (hok : (service_step api env branch action svc).2 = none) :
    handle_services api env (svc :: rest) branch action
      = ((service_step api env branch action svc).1
          ++ (handle_services api env rest branch action).1,
         (handle_services api env rest branch action).2) := by
  rcases hact with rfl | rfl
  · rw [service_step, if_pos rfl] at hok
    rw [handle_services, if_pos rfl]
    cases hms : modify_application api env svc branch (some (annotation_key svc)) with
    | mk t r =>
      rw [hms] at hok
      have hr : r = none := hok
      subst hr
      cases hrest : handle_services api env rest branch "pause" with
      | mk t2 r2 => simp [service_step, hms, hrest]
  · have hne : ("resume" : String) ≠ "pause" := by decide
    rw [service_step, if_neg hne, if_pos rfl] at hok
    rw [handle_services, if_neg hne, if_pos rfl]
    cases hms : modify_application api env svc branch none with
    | mk t r =>
      rw [hms] at hok
      have hr : r = none := hok
      subst hr
      cases hrest : handle_services api env rest branch "resume" with
      | mk t2 r2 => simp [service_step, hms, hrest]

theorem handle_services_fail_shape (api : RepoApi) (env branch action : String)
    (l1 : List String) (b : String) (l2 : List String)
    (hact : action = "pause" ∨ action = "resume")
    (hok : ∀ s ∈ l1, (service_step api env branch action s).2 = none)
    (hfail : (service_step api env branch action b).2.isSome = true) :
    ∃ e, handle_services api env (l1 ++ b :: l2) branch action
      = ((l1.map (fun s => (service_step api env branch action s).1)).flatten
          ++ (service_step api env branch action b).1, some e) := by
  induction l1 with
  | nil =>
    obtain ⟨e, he⟩ := Option.isSome_iff_exists.mp hfail
    refine ⟨e, ?_⟩
    rw [List.nil_append, handle_services_cons_fail api env b branch action l2 e hact he]
    simp
  | cons a l1' ih =>
    have ha := hok a (List.mem_cons_self a l1')
    obtain ⟨e, he⟩ := ih (fun s hs => hok s (List.mem_cons_of_mem a hs))
    refine ⟨e, ?_⟩
    rw [List.cons_append,
      handle_services_cons_ok api env a branch action (l1' ++ b :: l2) hact ha, he]
    simp

theorem countP_join_steps (api : RepoApi) (env branch action : String)
    (p : Ev → Bool) (l : List String) :
    ((l.map (fun s => (service_step api env branch action s).1)).flatten).countP p
      = (l.map (fun s => (service_step api env branch action s).1.countP p)).sum := by
  induction l with
  | nil => simp
  | cons a r ih => simp [List.countP_append, ih]

theorem sum_indicator_nodup {l : List String} {s : String} (hnd : l.Nodup) (hs : s ∈ l) :
    (l.map (fun x => if x = s then 1 else 0)).sum = 1 := by
  induction l with
  | nil => simp at hs
  | cons a r ih =>
    rw [List.nodup_cons] at hnd
    rcases List.mem_cons.mp hs with rfl | hs
    · have hz : (r.map (fun x => if x = s then 1 else 0)).sum = 0 := by
        refine List.sum_eq_zero (fun n hn => ?_)
        rcases List.mem_map.mp hn with ⟨x, hx, rfl⟩
        have hne : x ≠ s := fun hh => hnd.1 (hh ▸ hx)
        simp [hne]
      simp [hz]
    · have hne : a ≠ s := fun hh => hnd.1 (hh ▸ hs)
      simp [hne, ih hnd.2 hs]

theorem sum_indicator_not_mem {l : List String} {s : String} (hs : s ∉ l) :
    (l.map (fun x => if x = s then 1 else 0)).sum = 0 := by
  refine List.sum_eq_zero (fun n hn => ?_)
  rcases List.mem_map.mp hn with ⟨x, hx, rfl⟩
  have hne : x ≠ s := fun hh => hs (hh ▸ hx)
  simp [hne]

/-- C4: for action pause or resume, if processing of the service at some
position fails (manifest read, parsed structure, or file update), the run
stops with that error: no pull request is attempted, no service at a later
position is read or updated, and every service at an earlier position was
processed exactly once — one manifest read and one file update each. -/
theorem failed_service_aborts_batch (api : RepoApi) (env branch action : String)
    (l1 : List String) (b : String) (l2 : List String)
    (hact : action = "pause" ∨ action = "resume")
    (hcb : api.createBranch branch = .ok ())
    (hls : api.listDir ("envs/" ++ env) = .ok (l1 ++ b :: l2))
    (hnd : (l1 ++ b :: l2).Nodup)
    (hok : ∀ s ∈ l1, (service_step api env branch action s).2 = none)
    (hfail : (service_step api env branch action b).2.isSome = true) :
    (main_after_branch api branch action env).1.countP isPullEv = 0 ∧
    (main_after_branch api branch action env).2.isSome = true ∧
    (∀ s ∈ l2, (main_after_branch api branch action env).1.countP (isReadOf s) = 0 ∧
               (main_after_branch api branch action env).1.countP (isUpdateOf s) = 0) ∧
    (∀ s ∈ l1, (main_after_branch api branch action env).1.countP (isReadOf s) = 1 ∧
               (main_after_branch api branch action env).1.countP (isUpdateOf s) = 1) := by
  obtain ⟨e, hhs⟩ := handle_services_fail_shape api env branch action l1 b l2 hact hok hfail
  have hmain : main_after_branch api branch action env
      = (Ev.createBranch branch :: Ev.listDir ("envs/" ++ env) ::
          ((l1.map (fun s => (service_step api env branch action s).1)).flatten
            ++ (service_step api env branch action b).1), some e) := by
    rw [main_after_branch]
    simp only [hcb, if_pos hact, hls, hhs]
  rw [List.nodup_append] at hnd
  obtain ⟨hnd1, hnd2, hdisj⟩ := hnd
  rw [hmain]
  refine ⟨?_, by simp, ?_, ?_⟩
  · have hjoin : ((l1.map (fun s => (service_step api env branch action s).1)).flatten).countP
        isPullEv = 0 := by
      rw [countP_join_steps]
      refine List.sum_eq_zero (fun n hn => ?_)
      rcases List.mem_map.mp hn with ⟨x, _, rfl⟩
      exact (service_step_counts api env branch action x x hact).2.1
    have hb := (service_step_counts api env branch action b b hact).2.1
    simp [List.countP_cons, List.countP_append, isPullEv, hjoin, hb]
  · intro s hs
    have hsnl1 : s ∉ l1 := fun hmem => (hdisj hmem) (List.mem_cons_of_mem b hs)
    have hsnb : s ≠ b := by
      intro hh
      subst hh
      exact (List.nodup_cons.mp hnd2).1 hs
    have hjr : ((l1.map (fun s3 => (service_step api env branch action s3).1)).flatten).countP
        (isReadOf s) = 0 := by
      rw [countP_join_steps]
      refine List.sum_eq_zero (fun n hn => ?_)
      rcases List.mem_map.mp hn with ⟨x, hx, rfl⟩
      have hxs : ¬ (x = s) := fun hh => hsnl1 (hh ▸ hx)
      rw [(service_step_counts api env branch action x s hact).1, if_neg hxs]
    have hju : ((l1.map (fun s3 => (service_step api env branch action s3).1)).flatten).countP
        (isUpdateOf s) = 0 := by
      rw [countP_join_steps]
      refine List.sum_eq_zero (fun n hn => ?_)
      rcases List.mem_map.mp hn with ⟨x, hx, rfl⟩
      exact (service_step_counts api env branch action x s hact).2.2.1
        (fun hh => hsnl1 (hh ▸ hx))
    have hbr : ((service_step api env branch action b).1).countP (isReadOf s) = 0 := by
      rw [(service_step_counts api env branch action b s hact).1,
        if_neg (fun hh => hsnb (Eq.symm hh))]
    have hbu : ((service_step api env branch action b).1).countP (isUpdateOf s) = 0 :=
      (service_step_counts api env branch action b s hact).2.2.1
        (fun hh => hsnb (Eq.symm hh))
    constructor
    · simp [List.countP_cons, List.countP_append, isReadOf, hjr, hbr]
    · simp [List.countP_cons, List.countP_append, isUpdateOf, hju, hbu]
  · intro s hs
    have hsnb : s ≠ b := fun hh => (hdisj hs) (hh ▸ List.mem_cons_self b l2)
    have hjr : ((l1.map (fun s3 => (service_step api env branch action s3).1)).flatten).countP
        (isReadOf s) = 1 := by
      rw [countP_join_steps]
      have hmap : l1.map
          (fun x => (service_step api env branch action x).1.countP (isReadOf s))
          = l1.map (fun x => if x = s then 1 else 0) :=
        List.map_congr_left
          (fun x _ => (service_step_counts api env branch action x s hact).1)
      rw [hmap]
      exact sum_indicator_nodup hnd1 hs
    have hju : ((l1.map (fun s3 => (service_step api env branch action s3).1)).flatten).countP
        (isUpdateOf s) = 1 := by
      rw [countP_join_steps]
      have hmap : l1.map
          (fun x => (service_step api env branch action x).1.countP (isUpdateOf s))
          = l1.map (fun x => if x = s then 1 else 0) :=
        List.map_congr_left
          (fun x hx => (service_step_counts api env branch action x s hact).2.2.2 (hok x hx))
      rw [hmap]
      exact sum_indicator_nodup hnd1 hs
    have hbr : ((service_step api env branch action b).1).countP (isReadOf s) = 0 := by
      rw [(service_step_counts api env branch action b s hact).1,
        if_neg (fun hh => hsnb (Eq.symm hh))]
    have hbu : ((service_step api env branch action b).1).countP (isUpdateOf s) = 0 :=
      (service_step_counts api env branch action b s hact).2.2.1
        (fun hh => hsnb (Eq.symm hh))
    constructor
    · simp [List.countP_cons, List.countP_append, isReadOf, hjr, hbr]
    · simp [List.countP_cons, List.countP_append, isUpdateOf, hju, hbu]

/-- Witness for C4: with services `[a, b]` in `staging` and the update of
`b` failing with a conflict, the pause run reads and updates `a` exactly
once, touches nothing after `b`, and attempts no pull request. -/
theorem failed_service_aborts_batch_witness :
    (∀ s ∈ ["a"], (service_step apiFailB "staging" "br" "pause" s).2 = none) ∧
    (service_step apiFailB "staging" "br" "pause" "b").2.isSome = true ∧
    ((main_after_branch apiFailB "br" "pause" "staging").1.countP isPullEv = 0 ∧
     (main_after_branch apiFailB "br" "pause" "staging").2.isSome = true ∧
     (∀ s ∈ ([] : List String),
        (main_after_branch apiFailB "br" "pause" "staging").1.countP (isReadOf s) = 0 ∧
        (main_after_branch apiFailB "br" "pause" "staging").1.countP (isUpdateOf s) = 0) ∧
     (∀ s ∈ ["a"],
        (main_after_branch apiFailB "br" "pause" "staging").1.countP (isReadOf s) = 1 ∧
        (main_after_branch apiFailB "br" "pause" "staging").1.countP (isUpdateOf s) = 1)) :=
  ⟨by decide, by decide,
    failed_service_aborts_batch apiFailB "staging" "br" "pause" ["a"] "b" []
      (Or.inl rfl) rfl rfl (by decide) (by decide) (by decide)⟩
